import Mathlib

/-!
Verification development for the micro-batching chat service
(`app/main.py`, `app/model_loader.py`).

The embedding models the batching core: request tickets (`_BatchItem`),
the FIFO batch queue, the batch assembly window of `_batch_worker`,
per-item backend invocation with its try/except/finally, the metrics
recorder `_record_batch`, the handler-side wait in `chat`, and the
double-checked start guard `_ensure_batch_thread`.

Machine conventions: Python wall-clock readings (`time.time()`, floats)
are modelled as rationals; Python `int` is `Int`; a Python exception
raised by `generate` is an `Except.error` carrying `str(e)`; an
`Optional[str]` slot is `Option String`.
-/

namespace ChatApp

/-- A request ticket, mirroring `_BatchItem.__init__` (main.py lines 29-35):
`prompt`, `max_new_tokens`, a completion event (modelled by the number of
times `event.set()` has been called), an output slot and an error slot,
both initially unset. -/
structure BatchItem where
  prompt : String
  max_new_tokens : Int
  eventSetCount : Nat
  output : Option String
  error : Option String
deriving DecidableEq

/-- Ticket construction as in `_BatchItem.__init__`: event not set,
output and error slots empty. -/
def mkBatchItem (prompt : String) (max_new_tokens : Int) : BatchItem :=
  { prompt := prompt
    max_new_tokens := max_new_tokens
    eventSetCount := 0
    output := none
    error := none }

/-- The backend's sole operation `generate(prompt, max_new_tokens)`:
returns the generated text, or raises an exception whose description is
the `String` of the `error` case. -/
def Generate : Type := String → Int → Except String String

/-- One iteration of the per-item loop of `_batch_worker`
(main.py lines 78-85):

    try:
        item.output = m.generate(item.prompt, max_new_tokens=item.max_new_tokens)
    except Exception as e:
        item.error = str(e)
    finally:
        item.event.set()

On success the output slot is written; on an exception the error slot
receives `str(e)` and the output slot is left untouched; in both cases
the `finally` fires the event. -/
def processItem (g : Generate) (item : BatchItem) : BatchItem :=
  match g item.prompt item.max_new_tokens with
  | Except.ok out =>
      { item with output := some out, eventSetCount := item.eventSetCount + 1 }
  | Except.error e =>
      { item with error := some e, eventSetCount := item.eventSetCount + 1 }

/-- The `for item in batch` loop body of `_batch_worker`: each ticket of
the batch is processed in order, independently of its siblings. -/
def processBatch (g : Generate) (batch : List BatchItem) : List BatchItem :=
  batch.map (processItem g)

/-- Python truthiness of an `Optional[str]`: `None` and the empty string
are falsy, any non-empty string is truthy (`if item.error:` in `chat`). -/
def pyTruthy : Option String → Bool
  | none => false
  | some s => !(s = "")

/-- The three responses the non-profiling `chat` path can produce
(main.py lines 129-138): HTTP 504 `{"error": "timeout"}`, HTTP 500
`{"error": item.error}`, and HTTP 200 `{"response": item.output}`. -/
inductive ChatResponse where
  | timeoutResp : ChatResponse
  | errorResp : String → ChatResponse
  | okResp : Option String → ChatResponse
deriving DecidableEq

/-- The non-profiling path of the `chat` handler after the ticket has been
enqueued (main.py lines 133-138). `waited` is the value returned by
`item.event.wait(timeout=300)`: `false` means the 300-second wait timed
out. The handler only reads the ticket, so it is returned unchanged. -/
def chat (waited : Bool) (item : BatchItem) : ChatResponse × BatchItem :=
  if !waited then (ChatResponse.timeoutResp, item)
  else if pyTruthy item.error then
    (ChatResponse.errorResp (item.error.getD ""), item)
  else (ChatResponse.okResp item.output, item)

/-- The `chat` completion branch as the spec words it: "returns the output
slot's value on success or a GenerationFailed error carrying the error
slot's content" — an error counts as present exactly when the error slot
is populated. Stated for comparison with `chat`. -/
def chatSpecCompletion (waited : Bool) (item : BatchItem) : ChatResponse × BatchItem :=
  if !waited then (ChatResponse.timeoutResp, item)
  else
    match item.error with
    | some e => (ChatResponse.errorResp e, item)
    | none => (ChatResponse.okResp item.output, item)

/-- The environment of one iteration of the assembly loop of
`_batch_worker` (main.py lines 66-74): `t1` is the `time.time()` reading
of the `while` condition, `t2` the reading used for `remaining`, and
`arrived` tells whether `BATCH_QUEUE.get(timeout=remaining)` returned a
ticket (`true`) or raised `queue.Empty` (`false`). -/
structure GetEvent where
  t1 : ℚ
  t2 : ℚ
  arrived : Bool
deriving DecidableEq

/-- The assembly loop of `_batch_worker` (main.py lines 66-74):

    while len(batch) < BATCH_MAX_SIZE and time.time() < deadline:
        remaining = deadline - time.time()
        if remaining <= 0: break
        try:
            nxt = BATCH_QUEUE.get(timeout=remaining)
            batch.append(nxt)
        except queue.Empty:
            break

`q` is the pending queue in FIFO arrival order; a successful timed get
removes its head. The trace `evs` supplies one `GetEvent` per iteration;
when it is exhausted the observed run ends. Returns the assembled batch
and the remaining queue. -/
def assembleLoop (S : Int) (deadline : ℚ) :
    List GetEvent → List BatchItem → List BatchItem → List BatchItem × List BatchItem
  | [], batch, q => (batch, q)
  | ev :: evs, batch, q =>
      if (batch.length : Int) < S ∧ ev.t1 < deadline then
        if deadline - ev.t2 ≤ 0 then (batch, q)
        else if ev.arrived then
          match q with
          | [] => (batch, [])
          | x :: rest => assembleLoop S deadline evs (batch ++ [x]) rest
        else (batch, q)
      else (batch, q)

/-- Batch assembly of `_batch_worker` (main.py lines 64-74): the batch is
initialised with the blockingly dequeued `first` ticket, the deadline is
`t0 + W` where `t0` is the clock when `first` was obtained and `W` is
`BATCH_MAX_DELAY_SEC`, and the loop above runs against the remaining
queue `q`. `S` is `BATCH_MAX_SIZE`. -/
def assembleBatch (S : Int) (W t0 : ℚ) (first : BatchItem)
    (q : List BatchItem) (evs : List GetEvent) : List BatchItem × List BatchItem :=
  assembleLoop S (t0 + W) evs [first] q

/-- The process-wide counters `_metrics = {"batches": 0, "total_batch_items": 0}`. -/
structure Metrics where
  batches : Nat
  total_batch_items : Nat
deriving DecidableEq

/-- The counter update `_record_batch(n)` (main.py lines 101-103): one more batch, `n` more items. -/
def record_batch (m : Metrics) (n : Nat) : Metrics :=
  { batches := m.batches + 1, total_batch_items := m.total_batch_items + n }

/-- The worker's visible state across iterations of the `while True` loop:
the pending FIFO queue, the batches dispatched so far in dispatch order
(as assembled, before processing), the same batches after processing, and
the metrics counters. -/
structure WorkerState where
  queue : List BatchItem
  dispatched : List (List BatchItem)
  done : List (List BatchItem)
  metrics : Metrics
deriving DecidableEq

/-- Initial worker state: all tickets that will arrive, in FIFO arrival
order, with the metrics at their module-initialisation values. -/
def initWS (arrivals : List BatchItem) : WorkerState :=
  { queue := arrivals, dispatched := [], done := [], metrics := ⟨0, 0⟩ }

/-- One iteration of the `while True` loop of `_batch_worker`
(main.py lines 59-95), with the model acquisition `m = get_model()`
(line 75) allowed to raise: it stands outside every try/except of the
loop, so its exception escapes `_batch_worker` (`Except.error`). When
the queue is empty the blocking `BATCH_QUEUE.get()` never returns and
the state is unchanged. Otherwise: assemble a batch, obtain the model,
process every item of the batch in order, record the batch size. -/
def workerIterE (gm : Except String Generate) (S : Int) (W t0 : ℚ)
    (evs : List GetEvent) (s : WorkerState) : Except String WorkerState :=
  match s.queue with
  | [] => Except.ok s
  | first :: rest =>
      let p := assembleBatch S W t0 first rest evs
      match gm with
      | Except.error e => Except.error e
      | Except.ok g =>
          Except.ok
            { queue := p.2
              dispatched := s.dispatched ++ [p.1]
              done := s.done ++ [processBatch g p.1]
              metrics := record_batch s.metrics p.1.length }

/-- One iteration of the worker loop when `get_model()` returns normally:
the per-item try/except of lines 79-85 absorbs every `generate` failure,
so the iteration always yields a next state. -/
def workerIter (g : Generate) (S : Int) (W t0 : ℚ)
    (evs : List GetEvent) (s : WorkerState) : WorkerState :=
  match s.queue with
  | [] => s
  | first :: rest =>
      let p := assembleBatch S W t0 first rest evs
      { queue := p.2
        dispatched := s.dispatched ++ [p.1]
        done := s.done ++ [processBatch g p.1]
        metrics := record_batch s.metrics p.1.length }

/-- A schedule assigns to each iteration its clock reading `t0` at the
blocking get and its trace of assembly-loop events. -/
def Schedule : Type := Nat → ℚ × List GetEvent

/-- Runs `n` iterations of the worker loop under an `Except`-valued model getter. -/
def workerRunE (gm : Except String Generate) (S : Int) (W : ℚ)
    (sched : Schedule) : Nat → WorkerState → Except String WorkerState
  | 0, s => Except.ok s
  | n + 1, s =>
      match workerRunE gm S W sched n s with
      | Except.error e => Except.error e
      | Except.ok s' => workerIterE gm S W (sched n).1 (sched n).2 s'

/-- Runs `n` iterations of the worker loop with a normally obtained model. -/
def workerRun (g : Generate) (S : Int) (W : ℚ)
    (sched : Schedule) : Nat → WorkerState → WorkerState
  | 0, s => s
  | n + 1, s => workerIter g S W (sched n).1 (sched n).2 (workerRun g S W sched n s)

/-- Program points of one invocation of `_ensure_batch_thread`
(main.py lines 45-55):
`checkFlag` — the unguarded `if _batch_thread_started: return`;
`acquireLock` — about to enter `with _batch_lock`;
`checkFlag2` — the guarded re-check of the flag;
`startThread` — about to execute `t.start()`;
`setFlag` — about to execute `_batch_thread_started = True`;
`releaseLock` — about to leave the `with` block;
`finished` — the invocation has returned. -/
inductive PC where
  | checkFlag : PC
  | acquireLock : PC
  | checkFlag2 : PC
  | startThread : PC
  | setFlag : PC
  | releaseLock : PC
  | finished : PC
deriving DecidableEq

/-- Shared state of the start path: the global `_batch_thread_started`
flag, who holds `_batch_lock`, the program point of each calling thread
(thread `i` is index `i` of `pcs`), and how many worker threads have been
started (`t.start()` executions). -/
structure StartState where
  started : Bool
  lockHolder : Option Nat
  pcs : List PC
  startCount : Nat
deriving DecidableEq

/-- Initial state of `n` concurrent callers of `_ensure_batch_thread` before any has run:
flag unset, lock free, no worker thread started. -/
def initStart (n : Nat) : StartState :=
  { started := false, lockHolder := none, pcs := List.replicate n PC.checkFlag, startCount := 0 }

/-- Interleaving semantics of `_ensure_batch_thread`: one step executes
one atomic action of one thread (reads and writes of the flag are atomic
under the GIL; the lock is acquired only when free and released by its
holder). -/
inductive StartStep : StartState → StartState → Prop where
  | fastTrue (s : StartState) (i : Nat)
      (hi : s.pcs[i]? = some PC.checkFlag) (hs : s.started = true) :
      StartStep s { s with pcs := s.pcs.set i PC.finished }
  | fastFalse (s : StartState) (i : Nat)
      (hi : s.pcs[i]? = some PC.checkFlag) (hs : s.started = false) :
      StartStep s { s with pcs := s.pcs.set i PC.acquireLock }
  | acquire (s : StartState) (i : Nat)
      (hi : s.pcs[i]? = some PC.acquireLock) (hl : s.lockHolder = none) :
      StartStep s { s with lockHolder := some i, pcs := s.pcs.set i PC.checkFlag2 }
  | recheckTrue (s : StartState) (i : Nat)
      (hi : s.pcs[i]? = some PC.checkFlag2) (hs : s.started = true) :
      StartStep s { s with pcs := s.pcs.set i PC.releaseLock }
  | recheckFalse (s : StartState) (i : Nat)
      (hi : s.pcs[i]? = some PC.checkFlag2) (hs : s.started = false) :
      StartStep s { s with pcs := s.pcs.set i PC.startThread }
  | doStart (s : StartState) (i : Nat)
      (hi : s.pcs[i]? = some PC.startThread) :
      StartStep s { s with startCount := s.startCount + 1, pcs := s.pcs.set i PC.setFlag }
  | doSetFlag (s : StartState) (i : Nat)
      (hi : s.pcs[i]? = some PC.setFlag) :
      StartStep s { s with started := true, pcs := s.pcs.set i PC.releaseLock }
  | release (s : StartState) (i : Nat)
      (hi : s.pcs[i]? = some PC.releaseLock) :
      StartStep s { s with lockHolder := none, pcs := s.pcs.set i PC.finished }

/-- States reachable by interleaving `n` concurrent callers of
`_ensure_batch_thread` from the untouched initial state. -/
def StartReachable (n : Nat) (s : StartState) : Prop :=
  Relation.ReflTransGen StartStep (initStart n) s

/-- A thread at one of these program points is inside the `with _batch_lock`
block. -/
def inCrit : PC → Prop
  | PC.checkFlag2 => True
  | PC.startThread => True
  | PC.setFlag => True
  | PC.releaseLock => True
  | _ => False

/-- A backend used by concrete witnesses: fails with description "boom" on
the prompt "fail", succeeds elsewhere. -/
def gWitness : Generate :=
  fun p _ => if p = "fail" then Except.error "boom" else Except.ok (String.append p "-ok")

/-- A ticket whose backend call raised an exception with an empty
description: the worker stored `error = some ""` and fired the event. -/
def emptyErrorItem : BatchItem :=
  processItem (fun _ _ => Except.error "") (mkBatchItem "hello" 8)

/-- Claim C1: a ticket processed by the worker's per-item loop has its
completion event fired exactly once, on every exit path of the backend
call — also when `generate` raises — and at that moment exactly one of
the output slot and the error slot is populated: output set and error
unset on success, error set to the exception's description and output
unset on failure. -/
theorem ticket_completed_exactly_once (g : Generate) (item : BatchItem)
    (h0 : item.eventSetCount = 0) (ho : item.output = none) (he : item.error = none) :
    (processItem g item).eventSetCount = 1 ∧
    (((processItem g item).output.isSome ∧ (processItem g item).error = none) ∨
      ((processItem g item).error.isSome ∧ (processItem g item).output = none)) ∧
    (∀ o, g item.prompt item.max_new_tokens = Except.ok o →
      (processItem g item).output = some o ∧ (processItem g item).error = none) ∧
    (∀ e, g item.prompt item.max_new_tokens = Except.error e →
      (processItem g item).error = some e ∧ (processItem g item).output = none) := by
  cases hg : g item.prompt item.max_new_tokens <;>
    simp [processItem, hg, h0, ho, he]

/-- Witness for C1 at a concrete failing backend and a fresh ticket. -/
theorem ticket_completed_exactly_once_witness :
    (processItem gWitness (mkBatchItem "fail" 2)).eventSetCount = 1 ∧
    (((processItem gWitness (mkBatchItem "fail" 2)).output.isSome ∧
        (processItem gWitness (mkBatchItem "fail" 2)).error = none) ∨
      ((processItem gWitness (mkBatchItem "fail" 2)).error.isSome ∧
        (processItem gWitness (mkBatchItem "fail" 2)).output = none)) :=
  ⟨(ticket_completed_exactly_once gWitness (mkBatchItem "fail" 2) rfl rfl rfl).1,
   (ticket_completed_exactly_once gWitness (mkBatchItem "fail" 2) rfl rfl rfl).2.1⟩

/-- Claim C2: backend failure is isolated per ticket, for every batch of
fresh tickets, every failing position and every size. The worker
processes the whole batch (same length), the ticket whose `generate`
raised gets the error's description with no output, every ticket whose
`generate` succeeded is completed normally in place with its own output
and no error, and every ticket's completion event fires exactly once.
In particular, in a batch of three where only the second fails, tickets
1 and 3 carry outputs, ticket 2 carries the error, and all three
complete (the witness instantiates exactly this scenario). -/
theorem failure_isolated_in_batch (g : Generate) (batch : List BatchItem)
    (k : Nat) (bad : BatchItem) (e : String)
    (hfresh : ∀ it ∈ batch, it.eventSetCount = 0 ∧ it.output = none ∧ it.error = none)
    (hbad : batch[k]? = some bad)
    (hfail : g bad.prompt bad.max_new_tokens = Except.error e) :
    (processBatch g batch).length = batch.length ∧
    (processBatch g batch)[k]? =
      some ⟨bad.prompt, bad.max_new_tokens, 1, none, some e⟩ ∧
    (∀ (j : Nat) (it : BatchItem) (o : String), batch[j]? = some it →
      g it.prompt it.max_new_tokens = Except.ok o →
      (processBatch g batch)[j]? =
        some ⟨it.prompt, it.max_new_tokens, 1, some o, none⟩) ∧
    (∀ (j : Nat) (it : BatchItem), batch[j]? = some it →
      ∃ r : BatchItem, (processBatch g batch)[j]? = some r ∧ r.eventSetCount = 1) := by
  refine ⟨by simp [processBatch], ?_, ?_, ?_⟩
  · obtain ⟨h0, ho, he⟩ := hfresh bad (List.getElem?_mem hbad)
    rw [processBatch, List.getElem?_map, hbad]
    simp [processItem, hfail, h0, ho]
  · intro j it o hj hok
    obtain ⟨h0, ho, he⟩ := hfresh it (List.getElem?_mem hj)
    rw [processBatch, List.getElem?_map, hj]
    simp [processItem, hok, h0, he]
  · intro j it hj
    obtain ⟨h0, ho, he⟩ := hfresh it (List.getElem?_mem hj)
    refine ⟨processItem g it, ?_, ?_⟩
    · rw [processBatch, List.getElem?_map, hj]
      rfl
    · cases hg : g it.prompt it.max_new_tokens <;> simp [processItem, hg, h0]

/-- Witness for C2: the claim's own scenario — a batch of three fresh
tickets where the backend fails exactly on the middle one. -/
theorem failure_isolated_in_batch_witness :
    (processBatch gWitness
      [mkBatchItem "t1" 1, mkBatchItem "fail" 2, mkBatchItem "t3" 3])[1]? =
      some ⟨"fail", 2, 1, none, some "boom"⟩ ∧
    (processBatch gWitness
      [mkBatchItem "t1" 1, mkBatchItem "fail" 2, mkBatchItem "t3" 3])[0]? =
      some ⟨"t1", 1, 1, some "t1-ok", none⟩ ∧
    (processBatch gWitness
      [mkBatchItem "t1" 1, mkBatchItem "fail" 2, mkBatchItem "t3" 3])[2]? =
      some ⟨"t3", 3, 1, some "t3-ok", none⟩ :=
  ⟨(failure_isolated_in_batch gWitness
      [mkBatchItem "t1" 1, mkBatchItem "fail" 2, mkBatchItem "t3" 3]
      1 (mkBatchItem "fail" 2) "boom" (by decide) rfl rfl).2.1,
   (failure_isolated_in_batch gWitness
      [mkBatchItem "t1" 1, mkBatchItem "fail" 2, mkBatchItem "t3" 3]
      1 (mkBatchItem "fail" 2) "boom" (by decide) rfl rfl).2.2.1
     0 (mkBatchItem "t1" 1) "t1-ok" rfl rfl,
   (failure_isolated_in_batch gWitness
      [mkBatchItem "t1" 1, mkBatchItem "fail" 2, mkBatchItem "t3" 3]
      1 (mkBatchItem "fail" 2) "boom" (by decide) rfl rfl).2.2.1
     2 (mkBatchItem "t3" 3) "t3-ok" rfl rfl⟩

/-- Claim C10: the handler tests the error slot by Python truthiness, so
a backend exception with an empty string description makes the worker set
`error = some ""`, and the handler then answers with a success response
whose output is the unset (null) output slot, never with the
GenerationFailed (HTTP 500) response. -/
theorem empty_error_description_yields_ok (g : Generate) (p : String) (m : Int)
    (hg : g p m = Except.error "") :
    (processItem g (mkBatchItem p m)).error = some "" ∧
    (processItem g (mkBatchItem p m)).output = none ∧
    (processItem g (mkBatchItem p m)).eventSetCount = 1 ∧
    (chat true (processItem g (mkBatchItem p m))).1 = ChatResponse.okResp none ∧
    ∀ e, (chat true (processItem g (mkBatchItem p m))).1 ≠ ChatResponse.errorResp e := by
  simp [processItem, mkBatchItem, hg, chat, pyTruthy]

/-- Witness for C10 at a backend whose exception stringifies to "". -/
theorem empty_error_description_yields_ok_witness :
    (processItem (fun _ _ => Except.error "") (mkBatchItem "hello" 8)).error = some "" ∧
    (processItem (fun _ _ => Except.error "") (mkBatchItem "hello" 8)).output = none ∧
    (processItem (fun _ _ => Except.error "") (mkBatchItem "hello" 8)).eventSetCount = 1 ∧
    (chat true (processItem (fun _ _ => Except.error "") (mkBatchItem "hello" 8))).1 =
      ChatResponse.okResp none ∧
    ∀ e, (chat true (processItem (fun _ _ => Except.error "") (mkBatchItem "hello" 8))).1 ≠
      ChatResponse.errorResp e :=
  empty_error_description_yields_ok (fun _ _ => Except.error "") "hello" 8 rfl

/-- Claim C6, counterexample: at a ticket whose completion signal has
fired and whose error slot is populated (with the empty string), the
handler does not return a GenerationFailed error carrying the error
slot's content — it returns a success response with a null output — so
`chat` differs from the spec's completion branch `chatSpecCompletion`. -/
theorem chat_error_slot_cex :
    emptyErrorItem.error = some "" ∧
    emptyErrorItem.eventSetCount = 1 ∧
    (chat true emptyErrorItem).1 = ChatResponse.okResp none ∧
    (chat true emptyErrorItem).1 ≠ ChatResponse.errorResp "" ∧
    chat true emptyErrorItem ≠ chatSpecCompletion true emptyErrorItem := by
  decide

/-- Claim C6 as amended: on an unfired signal `chat` returns the distinct
Timeout response and leaves the ticket unchanged; on a fired signal it
returns GenerationFailed carrying the error slot's content when that
content is a non-empty string, and otherwise — error slot unset or
holding the empty string — a success response carrying the output slot;
the Timeout response differs from every GenerationFailed response. -/
theorem chat_response_taxonomy (item : BatchItem) (e : String) :
    (chat false item).1 = ChatResponse.timeoutResp ∧
    (chat false item).2 = item ∧
    (chat true item).2 = item ∧
    (item.error = some e → e ≠ "" → (chat true item).1 = ChatResponse.errorResp e) ∧
    (item.error = none → (chat true item).1 = ChatResponse.okResp item.output) ∧
    (item.error = some "" → (chat true item).1 = ChatResponse.okResp item.output) ∧
    ChatResponse.timeoutResp ≠ ChatResponse.errorResp e := by
  refine ⟨by simp [chat], by simp [chat], ?_, ?_, ?_, ?_, by simp⟩
  · by_cases h : pyTruthy item.error <;> simp [chat, h]
  · intro he hne
    simp [chat, pyTruthy, he, hne]
  · intro he
    simp [chat, pyTruthy, he]
  · intro he
    simp [chat, pyTruthy, he]

/-- Witness for C6's amended statement at a fired ticket with a non-empty
error description. -/
theorem chat_response_taxonomy_witness :
    ((mkBatchItem "p" 1 : BatchItem).error = none →
      (chat true (mkBatchItem "p" 1)).1 = ChatResponse.okResp (mkBatchItem "p" 1).output) ∧
    ChatResponse.timeoutResp ≠ ChatResponse.errorResp "boom" :=
  ⟨(chat_response_taxonomy (mkBatchItem "p" 1) "boom").2.2.2.2.1,
   (chat_response_taxonomy (mkBatchItem "p" 1) "boom").2.2.2.2.2.2⟩

/-- The assembly loop appends only while the batch is strictly below the
size bound, so a batch that starts within the bound stays within it. -/
theorem assembleLoop_length_le (S : Int) (d : ℚ) (evs : List GetEvent) :
    ∀ batch q : List BatchItem, (batch.length : Int) ≤ S →
      ((assembleLoop S d evs batch q).1.length : Int) ≤ S := by
  induction evs with
  | nil => intro batch q h; simpa [assembleLoop] using h
  | cons ev evs ih =>
      intro batch q h
      simp only [assembleLoop]
      split
      · rename_i hcond
        split
        · simpa using h
        · split
          · cases q with
            | nil => simpa using h
            | cons x rest =>
                apply ih
                have hlt : (batch.length : Int) < S := hcond.1
                simp only [List.length_append, List.length_cons, List.length_nil]
                push_cast
                omega
          · simpa using h
      · simpa using h

/-- The assembly loop never removes tickets from the batch. -/
theorem assembleLoop_length_ge (S : Int) (d : ℚ) (evs : List GetEvent) :
    ∀ batch q : List BatchItem,
      batch.length ≤ (assembleLoop S d evs batch q).1.length := by
  induction evs with
  | nil => intro batch q; simp [assembleLoop]
  | cons ev evs ih =>
      intro batch q
      simp only [assembleLoop]
      split
      · split
        · simp
        · split
          · cases q with
            | nil => simp
            | cons x rest =>
                calc batch.length ≤ (batch ++ [x]).length := by simp
                  _ ≤ (assembleLoop S d evs (batch ++ [x]) rest).1.length := ih _ _
          · simp
      · simp

/-- Assembly only moves tickets from the front of the queue to the back of
the batch: batch-so-far followed by queue-so-far is invariant. -/
theorem assembleLoop_fst_append_snd (S : Int) (d : ℚ) (evs : List GetEvent) :
    ∀ batch q : List BatchItem,
      (assembleLoop S d evs batch q).1 ++ (assembleLoop S d evs batch q).2 = batch ++ q := by
  induction evs with
  | nil => intro batch q; simp [assembleLoop]
  | cons ev evs ih =>
      intro batch q
      simp only [assembleLoop]
      split
      · split
        · simp
        · split
          · cases q with
            | nil => simp
            | cons x rest =>
                rw [ih (batch ++ [x]) rest]
                simp
          · simp
      · simp

/-- Claim C3: every batch assembled under a configured maximum size
`S ≥ 1` has between 1 and `S` tickets: assembly starts from the one
blockingly dequeued ticket and never appends beyond `S`. -/
theorem batch_size_bounds (S : Int) (W t0 : ℚ) (first : BatchItem)
    (q : List BatchItem) (evs : List GetEvent) (hS : 1 ≤ S) :
    1 ≤ (assembleBatch S W t0 first q evs).1.length ∧
    ((assembleBatch S W t0 first q evs).1.length : Int) ≤ S := by
  constructor
  · simpa using assembleLoop_length_ge S (t0 + W) evs [first] q
  · exact assembleLoop_length_le S (t0 + W) evs [first] q (by simpa using hS)

/-- Witness for C3 at `S = 1` with one waiting ticket and one loop event. -/
theorem batch_size_bounds_witness :
    (1 : Int) ≤ 1 ∧
    (1 ≤ (assembleBatch 1 0 0 (mkBatchItem "a" 1) [mkBatchItem "b" 1] [⟨0, 0, true⟩]).1.length ∧
      ((assembleBatch 1 0 0 (mkBatchItem "a" 1) [mkBatchItem "b" 1]
        [⟨0, 0, true⟩]).1.length : Int) ≤ 1) :=
  ⟨by decide,
   batch_size_bounds 1 0 0 (mkBatchItem "a" 1) [mkBatchItem "b" 1] [⟨0, 0, true⟩] (by decide)⟩

/-- Claim C4: when batching is disabled by configuration — maximum batch
size `S ≤ 0` or assembly window `W ≤ 0` — every iteration assembles the
batch consisting of exactly the first dequeued ticket, leaving the whole
waiting queue untouched, however many tickets wait in it. The clock
hypothesis says wall-clock readings taken after the first ticket was
obtained are not earlier than `t0`. -/
theorem disabled_coalescing_singleton (S : Int) (W t0 : ℚ) (first : BatchItem)
    (q : List BatchItem) (evs : List GetEvent)
    (hdis : S ≤ 0 ∨ W ≤ 0)
    (hclock : ∀ ev ∈ evs, t0 ≤ ev.t1) :
    assembleBatch S W t0 first q evs = ([first], q) := by
  cases evs with
  | nil => rfl
  | cons ev evs =>
      have hcl : t0 ≤ ev.t1 := hclock ev (List.mem_cons_self ev evs)
      rw [assembleBatch]
      simp only [assembleLoop]
      rw [if_neg]
      rintro ⟨h1, h2⟩
      rcases hdis with hS | hW
      · simp only [List.length_cons, List.length_nil] at h1
        omega
      · have hle : t0 + W ≤ t0 := by linarith
        exact absurd (lt_of_lt_of_le h2 (le_trans hle hcl)) (lt_irrefl _)

/-- Witness for C4 at `S = 0` with a waiting ticket and a loop event. -/
theorem disabled_coalescing_singleton_witness :
    assembleBatch 0 0 0 (mkBatchItem "a" 1) [mkBatchItem "b" 1] [⟨0, 0, true⟩] =
      ([mkBatchItem "a" 1], [mkBatchItem "b" 1]) :=
  disabled_coalescing_singleton 0 0 0 (mkBatchItem "a" 1) [mkBatchItem "b" 1]
    [⟨0, 0, true⟩] (Or.inl (by decide)) (by simp)

/-- Claim C5: the worker loop outlives every backend exception. Once the
model handle is obtained normally, an iteration's only failure source —
`generate` raising inside the per-item loop — is absorbed by the per-item
try/except, so for every backend `g` (including one that raises on every
call), every schedule and every iteration count `n`, the `Except`-valued
run returns normally, with the state the pure run computes: the loop
completes the batch and proceeds to the next iteration, indefinitely. -/
theorem worker_loop_survives_generate_failures (g : Generate) (S : Int) (W : ℚ)
    (sched : Schedule) (n : Nat) (s : WorkerState) :
    workerRunE (Except.ok g) S W sched n s = Except.ok (workerRun g S W sched n s) := by
  induction n with
  | zero => rfl
  | succ n ih =>
      rw [workerRunE, ih, workerRun]
      cases hq : (workerRun g S W sched n s).queue <;>
        simp [workerIterE, workerIter, hq]

/-- One worker iteration moves tickets only from the front of the queue to
the back of the dispatch history: the flattened dispatch history followed
by the pending queue is invariant. -/
theorem workerIter_flat_invariant (g : Generate) (S : Int) (W t0 : ℚ)
    (evs : List GetEvent) (s : WorkerState) :
    (workerIter g S W t0 evs s).dispatched.flatten ++ (workerIter g S W t0 evs s).queue =
      s.dispatched.flatten ++ s.queue := by
  cases hq : s.queue with
  | nil => simp [workerIter, hq]
  | cons first rest =>
      have hpart := assembleLoop_fst_append_snd S (t0 + W) evs [first] rest
      simp only [workerIter, hq, List.flatten_append, List.flatten_cons,
        List.flatten_nil, List.append_nil, List.append_assoc, assembleBatch]
      rw [hpart]
      simp

/-- One worker iteration extends `done` with exactly the processed image
of the batch it appends to `dispatched`. -/
theorem workerIter_done_invariant (g : Generate) (S : Int) (W t0 : ℚ)
    (evs : List GetEvent) (s : WorkerState)
    (h : s.done = s.dispatched.map (processBatch g)) :
    (workerIter g S W t0 evs s).done =
      (workerIter g S W t0 evs s).dispatched.map (processBatch g) := by
  cases hq : s.queue <;> simp [workerIter, hq, h]

/-- Claim C7: FIFO order is preserved end to end. Starting from the
arrival list `L`, after any number of worker iterations the batches
dispatched so far, concatenated in dispatch order, followed by the still
pending queue, are exactly `L`: every dispatched prefix keeps arrival
order, no ticket is skipped or reordered, and each recorded `done` batch
is its dispatched batch processed pointwise in batch order. -/
theorem fifo_preserved (g : Generate) (S : Int) (W : ℚ) (sched : Schedule)
    (L : List BatchItem) (n : Nat) :
    (workerRun g S W sched n (initWS L)).dispatched.flatten ++
      (workerRun g S W sched n (initWS L)).queue = L ∧
    (workerRun g S W sched n (initWS L)).done =
      (workerRun g S W sched n (initWS L)).dispatched.map (processBatch g) := by
  induction n with
  | zero => simp [workerRun, initWS]
  | succ n ih =>
      rw [workerRun]
      exact ⟨(workerIter_flat_invariant g S W (sched n).1 (sched n).2 _).trans ih.1,
        workerIter_done_invariant g S W (sched n).1 (sched n).2 _ ih.2⟩

/-- Sum of the lengths of lists each of which is nonempty dominates their
count. -/
theorem length_le_sum_of_nonempty :
    ∀ bs : List (List BatchItem), (∀ b ∈ bs, 1 ≤ b.length) →
      bs.length ≤ (bs.map List.length).sum := by
  intro bs
  induction bs with
  | nil => intro _; simp
  | cons b bs ih =>
      intro h
      simp only [List.map_cons, List.sum_cons, List.length_cons]
      have hb := h b (List.mem_cons_self b bs)
      have hrest := ih (fun x hx => h x (List.mem_cons_of_mem b hx))
      omega

/-- Each iteration leaves the metrics counters in step with the dispatch
history and keeps every dispatched batch nonempty. -/
theorem workerIter_metrics_invariant (g : Generate) (S : Int) (W t0 : ℚ)
    (evs : List GetEvent) (s : WorkerState)
    (hb : s.metrics.batches = s.dispatched.length)
    (ht : s.metrics.total_batch_items = (s.dispatched.map List.length).sum)
    (hne : ∀ b ∈ s.dispatched, 1 ≤ b.length) :
    (workerIter g S W t0 evs s).metrics.batches =
        (workerIter g S W t0 evs s).dispatched.length ∧
    (workerIter g S W t0 evs s).metrics.total_batch_items =
        ((workerIter g S W t0 evs s).dispatched.map List.length).sum ∧
    (∀ b ∈ (workerIter g S W t0 evs s).dispatched, 1 ≤ b.length) := by
  cases hq : s.queue with
  | nil => exact ⟨by simp [workerIter, hq, hb], by simp [workerIter, hq, ht], by
      simpa [workerIter, hq] using hne⟩
  | cons first rest =>
      refine ⟨?_, ?_, ?_⟩
      · simp [workerIter, hq, record_batch, hb]
      · simp [workerIter, hq, record_batch, ht]
      · intro b hbmem
        simp only [workerIter, hq, List.mem_append, List.mem_singleton] at hbmem
        rcases hbmem with hold | hnew
        · exact hne b hold
        · subst hnew
          simpa using assembleLoop_length_ge S (t0 + W) evs [first] rest

/-- Metrics counters never decrease across one iteration. -/
theorem workerIter_metrics_mono (g : Generate) (S : Int) (W t0 : ℚ)
    (evs : List GetEvent) (s : WorkerState) :
    s.metrics.batches ≤ (workerIter g S W t0 evs s).metrics.batches ∧
    s.metrics.total_batch_items ≤ (workerIter g S W t0 evs s).metrics.total_batch_items := by
  cases hq : s.queue <;> simp [workerIter, hq, record_batch]

/-- Claim C8: metrics accounting. After any number of iterations from the
initial state, `batches_processed` equals the number of dispatched
batches and `total_items_batched` equals the sum of their sizes; both
counters are non-decreasing from one iteration to the next; and since
every dispatched batch holds at least one ticket,
`total_items_batched ≥ batches_processed` always holds. -/
theorem metrics_accounting (g : Generate) (S : Int) (W : ℚ) (sched : Schedule)
    (L : List BatchItem) (n : Nat) :
    (workerRun g S W sched n (initWS L)).metrics.batches =
        (workerRun g S W sched n (initWS L)).dispatched.length ∧
    (workerRun g S W sched n (initWS L)).metrics.total_batch_items =
        ((workerRun g S W sched n (initWS L)).dispatched.map List.length).sum ∧
    (workerRun g S W sched n (initWS L)).metrics.batches ≤
        (workerRun g S W sched n (initWS L)).metrics.total_batch_items ∧
    (workerRun g S W sched n (initWS L)).metrics.batches ≤
        (workerRun g S W sched (n + 1) (initWS L)).metrics.batches ∧
    (workerRun g S W sched n (initWS L)).metrics.total_batch_items ≤
        (workerRun g S W sched (n + 1) (initWS L)).metrics.total_batch_items := by
  have main : ∀ m : Nat,
      (workerRun g S W sched m (initWS L)).metrics.batches =
          (workerRun g S W sched m (initWS L)).dispatched.length ∧
      (workerRun g S W sched m (initWS L)).metrics.total_batch_items =
          ((workerRun g S W sched m (initWS L)).dispatched.map List.length).sum ∧
      (∀ b ∈ (workerRun g S W sched m (initWS L)).dispatched, 1 ≤ b.length) := by
    intro m
    induction m with
    | zero => exact ⟨by simp [workerRun, initWS], by simp [workerRun, initWS], by
        simp [workerRun, initWS]⟩
    | succ m ih =>
        rw [workerRun]
        exact workerIter_metrics_invariant g S W (sched m).1 (sched m).2 _ ih.1 ih.2.1 ih.2.2
  refine ⟨(main n).1, (main n).2.1, ?_, ?_, ?_⟩
  · rw [(main n).1, (main n).2.1]
    exact length_le_sum_of_nonempty _ (main n).2.2
  · rw [workerRun]
    exact (workerIter_metrics_mono g S W (sched n).1 (sched n).2 _).1
  · rw [workerRun]
    exact (workerIter_metrics_mono g S W (sched n).1 (sched n).2 _).2

/-- Looking up a position in an updated program-counter list: either it is
the updated position holding the new value, or it is another position
holding its old value. -/
theorem set_lookup {l : List PC} {i j : Nat} {v pc : PC}
    (h : (l.set i v)[j]? = some pc) :
    (i = j ∧ pc = v) ∨ (i ≠ j ∧ l[j]? = some pc) := by
  rw [List.getElem?_set] at h
  by_cases hij : i = j
  · rw [if_pos hij] at h
    split at h
    · exact Or.inl ⟨hij, (Option.some.inj h).symm⟩
    · exact absurd h (by simp)
  · rw [if_neg hij] at h
    exact Or.inr ⟨hij, h⟩

/-- A successful lookup is inside the list. -/
theorem lt_of_lookup {l : List PC} {i : Nat} {pc : PC} (h : l[i]? = some pc) :
    i < l.length := by
  by_contra hge
  rw [List.getElem?_eq_none (by omega)] at h
  exact absurd h (by simp)

/-- Inductive invariant of the `_ensure_batch_thread` protocol:
mutual exclusion of the `with _batch_lock` region, the flag is written
only after `t.start()` by the lock holder, the start count is 0 before
any `t.start()` and 1 from then on, and a thread that reached the lock
release or returned has seen the flag set. -/
def StartInv (s : StartState) : Prop :=
  (∀ (i : Nat) (pc : PC), s.pcs[i]? = some pc → inCrit pc → s.lockHolder = some i) ∧
  (∀ i : Nat, s.pcs[i]? = some PC.startThread → s.started = false) ∧
  (∀ i : Nat, s.pcs[i]? = some PC.setFlag → s.started = false) ∧
  (s.started = true → s.startCount = 1) ∧
  (s.started = false → (∃ i : Nat, s.pcs[i]? = some PC.setFlag) → s.startCount = 1) ∧
  (s.started = false → (∀ i : Nat, s.pcs[i]? ≠ some PC.setFlag) → s.startCount = 0) ∧
  (∀ i : Nat, s.pcs[i]? = some PC.releaseLock → s.started = true) ∧
  (∀ i : Nat, s.pcs[i]? = some PC.finished → s.started = true)

/-- In the initial state every thread is at the unguarded flag check. -/
theorem initStart_lookup {n i : Nat} {pc : PC}
    (h : (initStart n).pcs[i]? = some pc) : pc = PC.checkFlag := by
  simp only [initStart] at h
  rw [List.getElem?_replicate] at h
  split at h
  · exact (Option.some.inj h).symm
  · exact absurd h (by simp)

/-- The invariant holds initially. -/
theorem startInv_init (n : Nat) : StartInv (initStart n) := by
  refine ⟨?_, ?_, ?_, ?_, ?_, ?_, ?_, ?_⟩
  · intro i pc h hc
    rw [initStart_lookup h] at hc
    simp [inCrit] at hc
  · intro i h
    exact absurd (initStart_lookup h) (by simp)
  · intro i h
    exact absurd (initStart_lookup h) (by simp)
  · intro h
    exact absurd h (by simp [initStart])
  · intro _ hex
    obtain ⟨i, hi⟩ := hex
    exact absurd (initStart_lookup hi) (by simp)
  · intro _ _
    rfl
  · intro i h
    exact absurd (initStart_lookup h) (by simp)
  · intro i h
    exact absurd (initStart_lookup h) (by simp)

/-- The invariant is preserved by every interleaved step of
`_ensure_batch_thread`. -/
theorem startInv_step {s t : StartState} (hinv : StartInv s) (hstep : StartStep s t) :
    StartInv t := by
  obtain ⟨hA, hB, hC, hD, hE1, hE0, hF, hG⟩ := hinv
  cases hstep with
  | fastTrue i hi hflag =>
      refine ⟨?_, ?_, ?_, hD, ?_, ?_, ?_, ?_⟩
      · intro j pc h hc
        rcases set_lookup h with ⟨hij, hpc⟩ | ⟨hij, hold⟩
        · subst hpc; simp [inCrit] at hc
        · exact hA j pc hold hc
      · intro j h
        rcases set_lookup h with ⟨hij, hpc⟩ | ⟨hij, hold⟩
        · exact absurd hpc (by simp)
        · exact hB j hold
      · intro j h
        rcases set_lookup h with ⟨hij, hpc⟩ | ⟨hij, hold⟩
        · exact absurd hpc (by simp)
        · exact hC j hold
      · intro hf hex
        obtain ⟨j, hj⟩ := hex
        rcases set_lookup hj with ⟨hij, hpc⟩ | ⟨hij, hold⟩
        · exact absurd hpc (by simp)
        · exact hE1 hf ⟨j, hold⟩
      · intro hf hall
        apply hE0 hf
        intro j hj
        by_cases hij : i = j
        · subst hij
          exact absurd (hi.symm.trans hj) (by simp)
        · exact hall j (by rw [List.getElem?_set_ne hij]; exact hj)
      · intro j h
        rcases set_lookup h with ⟨hij, hpc⟩ | ⟨hij, hold⟩
        · exact absurd hpc (by simp)
        · exact hF j hold
      · intro j h
        rcases set_lookup h with ⟨hij, hpc⟩ | ⟨hij, hold⟩
        · exact hflag
        · exact hG j hold
  | fastFalse i hi hflag =>
      refine ⟨?_, ?_, ?_, hD, ?_, ?_, ?_, ?_⟩
      · intro j pc h hc
        rcases set_lookup h with ⟨hij, hpc⟩ | ⟨hij, hold⟩
        · subst hpc; simp [inCrit] at hc
        · exact hA j pc hold hc
      · intro j h
        rcases set_lookup h with ⟨hij, hpc⟩ | ⟨hij, hold⟩
        · exact absurd hpc (by simp)
        · exact hB j hold
      · intro j h
        rcases set_lookup h with ⟨hij, hpc⟩ | ⟨hij, hold⟩
        · exact absurd hpc (by simp)
        · exact hC j hold
      · intro hf hex
        obtain ⟨j, hj⟩ := hex
        rcases set_lookup hj with ⟨hij, hpc⟩ | ⟨hij, hold⟩
        · exact absurd hpc (by simp)
        · exact hE1 hf ⟨j, hold⟩
      · intro hf hall
        apply hE0 hf
        intro j hj
        by_cases hij : i = j
        · subst hij
          exact absurd (hi.symm.trans hj) (by simp)
        · exact hall j (by rw [List.getElem?_set_ne hij]; exact hj)
      · intro j h
        rcases set_lookup h with ⟨hij, hpc⟩ | ⟨hij, hold⟩
        · exact absurd hpc (by simp)
        · exact hF j hold
      · intro j h
        rcases set_lookup h with ⟨hij, hpc⟩ | ⟨hij, hold⟩
        · exact absurd hpc (by simp)
        · exact hG j hold
  | acquire i hi hl =>
      refine ⟨?_, ?_, ?_, hD, ?_, ?_, ?_, ?_⟩
      · intro j pc h hc
        rcases set_lookup h with ⟨hij, hpc⟩ | ⟨hij, hold⟩
        · subst hij; rfl
        · exact absurd (hl.symm.trans (hA j pc hold hc)) (by simp)
      · intro j h
        rcases set_lookup h with ⟨hij, hpc⟩ | ⟨hij, hold⟩
        · exact absurd hpc (by simp)
        · exact hB j hold
      · intro j h
        rcases set_lookup h with ⟨hij, hpc⟩ | ⟨hij, hold⟩
        · exact absurd hpc (by simp)
        · exact hC j hold
      · intro hf hex
        obtain ⟨j, hj⟩ := hex
        rcases set_lookup hj with ⟨hij, hpc⟩ | ⟨hij, hold⟩
        · exact absurd hpc (by simp)
        · exact hE1 hf ⟨j, hold⟩
      · intro hf hall
        apply hE0 hf
        intro j hj
        by_cases hij : i = j
        · subst hij
          exact absurd (hi.symm.trans hj) (by simp)
        · exact hall j (by rw [List.getElem?_set_ne hij]; exact hj)
      · intro j h
        rcases set_lookup h with ⟨hij, hpc⟩ | ⟨hij, hold⟩
        · exact absurd hpc (by simp)
        · exact hF j hold
      · intro j h
        rcases set_lookup h with ⟨hij, hpc⟩ | ⟨hij, hold⟩
        · exact absurd hpc (by simp)
        · exact hG j hold
  | recheckTrue i hi hflag =>
      refine ⟨?_, ?_, ?_, hD, ?_, ?_, ?_, ?_⟩
      · intro j pc h hc
        rcases set_lookup h with ⟨hij, hpc⟩ | ⟨hij, hold⟩
        · subst hij; exact hA i PC.checkFlag2 hi (by simp [inCrit])
        · exact hA j pc hold hc
      · intro j h
        rcases set_lookup h with ⟨hij, hpc⟩ | ⟨hij, hold⟩
        · exact absurd hpc (by simp)
        · exact hB j hold
      · intro j h
        rcases set_lookup h with ⟨hij, hpc⟩ | ⟨hij, hold⟩
        · exact absurd hpc (by simp)
        · exact hC j hold
      · intro hf _
        exact Bool.noConfusion (hflag.symm.trans hf)
      · intro hf _
        exact Bool.noConfusion (hflag.symm.trans hf)
      · intro j h
        rcases set_lookup h with ⟨hij, hpc⟩ | ⟨hij, hold⟩
        · exact hflag
        · exact hF j hold
      · intro j h
        rcases set_lookup h with ⟨hij, hpc⟩ | ⟨hij, hold⟩
        · exact absurd hpc (by simp)
        · exact hG j hold
  | recheckFalse i hi hflag =>
      refine ⟨?_, ?_, ?_, hD, ?_, ?_, ?_, ?_⟩
      · intro j pc h hc
        rcases set_lookup h with ⟨hij, hpc⟩ | ⟨hij, hold⟩
        · subst hij; exact hA i PC.checkFlag2 hi (by simp [inCrit])
        · exact hA j pc hold hc
      · intro j h
        rcases set_lookup h with ⟨hij, hpc⟩ | ⟨hij, hold⟩
        · exact hflag
        · exact hB j hold
      · intro j h
        rcases set_lookup h with ⟨hij, hpc⟩ | ⟨hij, hold⟩
        · exact absurd hpc (by simp)
        · exact hC j hold
      · intro hf hex
        obtain ⟨j, hj⟩ := hex
        rcases set_lookup hj with ⟨hij, hpc⟩ | ⟨hij, hold⟩
        · exact absurd hpc (by simp)
        · exact hE1 hf ⟨j, hold⟩
      · intro hf hall
        apply hE0 hf
        intro j hj
        by_cases hij : i = j
        · subst hij
          exact absurd (hi.symm.trans hj) (by simp)
        · exact hall j (by rw [List.getElem?_set_ne hij]; exact hj)
      · intro j h
        rcases set_lookup h with ⟨hij, hpc⟩ | ⟨hij, hold⟩
        · exact absurd hpc (by simp)
        · exact hF j hold
      · intro j h
        rcases set_lookup h with ⟨hij, hpc⟩ | ⟨hij, hold⟩
        · exact absurd hpc (by simp)
        · exact hG j hold
  | doStart i hi =>
      have hstarted : s.started = false := hB i hi
      have hlock : s.lockHolder = some i := hA i PC.startThread hi (by simp [inCrit])
      have hnosf : ∀ j : Nat, s.pcs[j]? ≠ some PC.setFlag := by
        intro j hj
        have hlj := hA j PC.setFlag hj (by simp [inCrit])
        have hji : i = j := Option.some.inj (hlock.symm.trans hlj)
        subst hji
        exact absurd (hi.symm.trans hj) (by simp)
      have hcount0 : s.startCount = 0 := hE0 hstarted hnosf
      refine ⟨?_, ?_, ?_, ?_, ?_, ?_, ?_, ?_⟩
      · intro j pc h hc
        rcases set_lookup h with ⟨hij, hpc⟩ | ⟨hij, hold⟩
        · subst hij; exact hlock
        · exact hA j pc hold hc
      · intro j h
        rcases set_lookup h with ⟨hij, hpc⟩ | ⟨hij, hold⟩
        · exact absurd hpc (by simp)
        · exact hB j hold
      · intro j h
        rcases set_lookup h with ⟨hij, hpc⟩ | ⟨hij, hold⟩
        · exact hstarted
        · exact hC j hold
      · intro h
        exact Bool.noConfusion (hstarted.symm.trans h)
      · intro _ _
        show s.startCount + 1 = 1
        omega
      · intro _ hall
        exact absurd (List.getElem?_set_self (lt_of_lookup hi)) (hall i)
      · intro j h
        rcases set_lookup h with ⟨hij, hpc⟩ | ⟨hij, hold⟩
        · exact absurd hpc (by simp)
        · exact hF j hold
      · intro j h
        rcases set_lookup h with ⟨hij, hpc⟩ | ⟨hij, hold⟩
        · exact absurd hpc (by simp)
        · exact hG j hold
  | doSetFlag i hi =>
      have hstarted : s.started = false := hC i hi
      have hlock : s.lockHolder = some i := hA i PC.setFlag hi (by simp [inCrit])
      have hcount1 : s.startCount = 1 := hE1 hstarted ⟨i, hi⟩
      have honlyi : ∀ (j : Nat) (pc : PC), s.pcs[j]? = some pc → inCrit pc → j = i := by
        intro j pc h hc
        exact Option.some.inj ((hA j pc h hc).symm.trans hlock)
      refine ⟨?_, ?_, ?_, ?_, ?_, ?_, ?_, ?_⟩
      · intro j pc h hc
        rcases set_lookup h with ⟨hij, hpc⟩ | ⟨hij, hold⟩
        · subst hij; exact hlock
        · exact hA j pc hold hc
      · intro j h
        rcases set_lookup h with ⟨hij, hpc⟩ | ⟨hij, hold⟩
        · exact absurd hpc (by simp)
        · exact absurd (honlyi j PC.startThread hold (by simp [inCrit])).symm hij
      · intro j h
        rcases set_lookup h with ⟨hij, hpc⟩ | ⟨hij, hold⟩
        · exact absurd hpc (by simp)
        · exact absurd (honlyi j PC.setFlag hold (by simp [inCrit])).symm hij
      · intro _
        exact hcount1
      · intro hf _
        exact Bool.noConfusion hf
      · intro hf _
        exact Bool.noConfusion hf
      · intro j _
        rfl
      · intro j _
        rfl
  | release i hi =>
      have hstarted : s.started = true := hF i hi
      have hlock : s.lockHolder = some i := hA i PC.releaseLock hi (by simp [inCrit])
      have honlyi : ∀ (j : Nat) (pc : PC), s.pcs[j]? = some pc → inCrit pc → j = i := by
        intro j pc h hc
        exact Option.some.inj ((hA j pc h hc).symm.trans hlock)
      refine ⟨?_, ?_, ?_, ?_, ?_, ?_, ?_, ?_⟩
      · intro j pc h hc
        rcases set_lookup h with ⟨hij, hpc⟩ | ⟨hij, hold⟩
        · subst hpc; simp [inCrit] at hc
        · exact absurd (honlyi j pc hold hc).symm hij
      · intro j h
        rcases set_lookup h with ⟨hij, hpc⟩ | ⟨hij, hold⟩
        · exact absurd hpc (by simp)
        · exact hB j hold
      · intro j h
        rcases set_lookup h with ⟨hij, hpc⟩ | ⟨hij, hold⟩
        · exact absurd hpc (by simp)
        · exact hC j hold
      · intro _
        exact hD hstarted
      · intro hf _
        exact Bool.noConfusion (hstarted.symm.trans hf)
      · intro hf _
        exact Bool.noConfusion (hstarted.symm.trans hf)
      · intro j h
        rcases set_lookup h with ⟨hij, hpc⟩ | ⟨hij, hold⟩
        · exact absurd hpc (by simp)
        · exact hF j hold
      · intro j h
        rcases set_lookup h with ⟨hij, hpc⟩ | ⟨hij, hold⟩
        · exact hstarted
        · exact hG j hold

/-- The invariant holds in every reachable state. -/
theorem startInv_reachable {n : Nat} {s : StartState} (h : StartReachable n s) :
    StartInv s := by
  induction h with
  | refl => exact startInv_init n
  | tail _ hbc ih => exact startInv_step ih hbc

/-- Claim C9: worker start is idempotent. In every state reachable by any
interleaving of any number of concurrent callers of
`_ensure_batch_thread`, at most one worker thread has been started; once
the flag is set exactly one has been started; and whenever some
invocation has returned, exactly one worker thread exists — so every
invocation returning after the first successful start starts nothing. -/
theorem start_idempotent (n : Nat) (s : StartState) (h : StartReachable n s) :
    s.startCount ≤ 1 ∧
    (s.started = true → s.startCount = 1) ∧
    ((∃ i : Nat, s.pcs[i]? = some PC.finished) → s.startCount = 1) := by
  obtain ⟨hA, hB, hC, hD, hE1, hE0, hF, hG⟩ := startInv_reachable h
  refine ⟨?_, hD, ?_⟩
  · cases hb : s.started with
    | true => rw [hD hb]
    | false =>
        by_cases hex : ∃ i : Nat, s.pcs[i]? = some PC.setFlag
        · rw [hE1 hb hex]
        · rw [hE0 hb (by push_neg at hex; exact hex)]
          omega
  · rintro ⟨i, hi⟩
    exact hD (hG i hi)

/-- The state in which one single caller of `_ensure_batch_thread` has run
to completion: flag set, lock free, caller returned, one thread started. -/
def startDone : StartState :=
  { started := true, lockHolder := none, pcs := [PC.finished], startCount := 1 }

/-- Witness for C9: a single caller runs start to completion; the final
state is reachable and holds exactly one started worker thread. -/
theorem start_idempotent_witness :
    startDone.startCount ≤ 1 ∧
    (startDone.started = true → startDone.startCount = 1) ∧
    ((∃ i : Nat, startDone.pcs[i]? = some PC.finished) →
      startDone.startCount = 1) := by
  apply start_idempotent 1
  exact Relation.ReflTransGen.head (StartStep.fastFalse (initStart 1) 0 rfl rfl)
    (Relation.ReflTransGen.head
      (StartStep.acquire ⟨false, none, [PC.acquireLock], 0⟩ 0 rfl rfl)
      (Relation.ReflTransGen.head
        (StartStep.recheckFalse ⟨false, some 0, [PC.checkFlag2], 0⟩ 0 rfl rfl)
        (Relation.ReflTransGen.head
          (StartStep.doStart ⟨false, some 0, [PC.startThread], 0⟩ 0 rfl)
          (Relation.ReflTransGen.head
            (StartStep.doSetFlag ⟨false, some 0, [PC.setFlag], 1⟩ 0 rfl)
            (Relation.ReflTransGen.head
              (StartStep.release ⟨true, some 0, [PC.releaseLock], 1⟩ 0 rfl)
              Relation.ReflTransGen.refl)))))

end ChatApp
